import Mathlib

/-!
Verification of the `execution-anthropic` provider adapter (`src/index.ts`).

The development shallowly embeds the adapter: the message partitioning,
credential resolution and validation, vendor-call parameter construction,
response extraction, and the credential-redaction patterns registered on
module load.  The vendor client (`client.messages.create`) is modelled as an
explicit function argument so that the adapter's single outbound call is
observable.
-/

namespace ExecutionAnthropic

/-! ## Credential redaction (patterns registered in `src/index.ts`) -/

/-- Character class `[a-zA-Z0-9_-]` used by the Anthropic key regexes. -/
def isKeyChar (c : Char) : Bool := c.isAlphanum || c == '-' || c == '_'

/-- The literal `sk-ant-` that begins every match of the redaction pattern. -/
def skAntPat : List Char := ['s', 'k', '-', 'a', 'n', 't', '-']

/-- The replacement text `[REDACTED]` configured via `configureSecretGuard`. -/
def redactedText : List Char := ['[', 'R', 'E', 'D', 'A', 'C', 'T', 'E', 'D', ']']

/-- Does the regex `sk-ant-[a-zA-Z0-9_-]+` match at the head of `l`? -/
def startsWithKeyPat (l : List Char) : Bool :=
  skAntPat.isPrefixOf l &&
    (match l.drop 7 with
     | c :: _ => isKeyChar c
     | [] => false)

/-- One global pass of JavaScript `String.replace` with the regex
`sk-ant-[a-zA-Z0-9_-]+` and replacement `[REDACTED]`: scan left to right and,
wherever a match starts, replace the greedy (hence maximal) match.  The
recursion is made structural by a fuel argument; `redact` instantiates the
fuel with the length of the input, which always suffices because each step
consumes at least one character. -/
def redactGo : Nat → List Char → List Char
  | 0, l => l
  | _ + 1, [] => []
  | n + 1, c :: rest =>
    if startsWithKeyPat (c :: rest) then
      redactedText ++ redactGo n (((c :: rest).drop 7).dropWhile isKeyChar)
    else
      c :: redactGo n rest

/-- Redaction of a character list.  The secret guard registers a second
pattern `sk-ant-api\d+-[a-zA-Z0-9_-]+`, but every one of its matches lies
inside a maximal match of the first pattern, so the second pass is the
identity and only the first pass is modelled. -/
def redact (l : List Char) : List Char := redactGo l.length l

/-- Redaction of a string. -/
def redactS (s : String) : String := String.mk (redact s.data)

/-- The tail of the key validator after `sk-ant-`, grouped alternative:
`api` digits `-` suffix. -/
def apiTail (rest : List Char) : Bool :=
  ['a', 'p', 'i'].isPrefixOf rest &&
    (decide ((rest.drop 3).takeWhile Char.isDigit ≠ []) &&
      (['-'].isPrefixOf ((rest.drop 3).dropWhile Char.isDigit) &&
        (decide (((rest.drop 3).dropWhile Char.isDigit).drop 1 ≠ []) &&
          (((rest.drop 3).dropWhile Char.isDigit).drop 1).all isKeyChar)))

/-- The tail of the key validator after the literal `sk-ant-`: either the
grouped alternative `api\d+-[a-zA-Z0-9_-]+` or a bare `[a-zA-Z0-9_-]+`. -/
def keyTail (rest : List Char) : Bool :=
  apiTail rest || (decide (rest ≠ []) && rest.all isKeyChar)

/-- The validator regex `^sk-ant(-api\d+)?-[a-zA-Z0-9_-]+$` registered for
provider `anthropic` in `src/index.ts` (applied by `redactor.validateKey`). -/
def validKey (k : List Char) : Bool :=
  skAntPat.isPrefixOf k && keyTail (k.drop 7)

/-- Does any position of `l` start a match of `sk-ant-[a-zA-Z0-9_-]+`? -/
def hasKeyPat : List Char → Bool
  | [] => false
  | c :: rest => startsWithKeyPat (c :: rest) || hasKeyPat rest

/-! ## JavaScript primitives used by the adapter -/

/-- JavaScript `a || b` on possibly-absent strings; `undefined` and `""` are
falsy. -/
def jsOr (a b : Option String) : Option String :=
  match a with
  | some s => if s = "" then b else some s
  | none => b

/-- JavaScript `a || b` where `a` is an optional string and `b` a string. -/
def jsOrStr (a : Option String) (b : String) : String :=
  match a with
  | some s => if s = "" then b else s
  | none => b

/-- JavaScript `a || b` on strings. -/
def jsOrStr2 (a b : String) : String := if a = "" then b else a

/-- JavaScript `a || b` where `a` is an optional number; `0` is falsy. -/
def jsOrNat (a : Option Nat) (b : Nat) : Nat :=
  match a with
  | some n => if n = 0 then b else n
  | none => b

/-- JavaScript's whitespace class for `String.prototype.trim`. -/
def jsWhitespace (c : Char) : Bool :=
  c == ' ' || c == '\t' || c == '\n' || c == '\x0B' || c == '\x0C' || c == '\r' ||
    c == '\u00A0' || c == '\uFEFF' || c == '\u2028' || c == '\u2029'

/-- Trim `jsWhitespace` from both ends of a character list. -/
def trimChars (l : List Char) : List Char :=
  ((l.dropWhile jsWhitespace).reverse.dropWhile jsWhitespace).reverse

/-- JavaScript `String.prototype.trim`. -/
def jsTrim (s : String) : String := String.mk (trimChars s.data)

/-- Join a list of strings with a separator between consecutive elements. -/
def sepJoin (sep : String) : List String → String
  | [] => ""
  | [x] => x
  | x :: y :: rest => x ++ sep ++ sepJoin sep (y :: rest)

/-! ## JSON serialization (`JSON.stringify`) -/

/-- Lower-case hexadecimal digit. -/
def hexDigit (n : Nat) : Char :=
  if n < 10 then Char.ofNat (48 + n) else Char.ofNat (87 + n)

/-- `JSON.stringify` escaping of one character inside a string literal. -/
def escapeChar (c : Char) : String :=
  if c == '"' then "\\\""
  else if c == '\\' then "\\\\"
  else if c == '\n' then "\\n"
  else if c == '\r' then "\\r"
  else if c == '\t' then "\\t"
  else if c == '\x08' then "\\b"
  else if c == '\x0C' then "\\f"
  else if c.toNat < 32 then
    "\\u00" ++ String.mk [hexDigit (c.toNat / 16), hexDigit (c.toNat % 16)]
  else String.singleton c

/-- `JSON.stringify` of a string value. -/
def quoteJson (s : String) : String :=
  "\"" ++ String.join (s.data.map escapeChar) ++ "\""

/-- JSON values, as carried by the vendor's `tool_use.input` and by the
request's schema descriptor.  Numbers carry their printed form, which is all
the adapter ever uses of them. -/
inductive Json where
  | jnull : Json
  | jbool : Bool → Json
  | jnum : String → Json
  | jstr : String → Json
  | jarr : List Json → Json
  | jobj : List (String × Json) → Json

/-- `ind` spaces. -/
def indentStr (ind : Nat) : String := String.mk (List.replicate ind ' ')

/-- `JSON.stringify(v, null, 2)` at indentation level `ind`. -/
def prettyGo (ind : Nat) : Json → String
  | .jnull => "null"
  | .jbool b => if b then "true" else "false"
  | .jnum s => s
  | .jstr s => quoteJson s
  | .jarr [] => "[]"
  | .jarr (j :: js) =>
    "[\n" ++ indentStr (ind + 2) ++
      sepJoin (",\n" ++ indentStr (ind + 2))
        ((j :: js).attach.map fun x => prettyGo (ind + 2) x.1) ++
      "\n" ++ indentStr ind ++ "]"
  | .jobj [] => "\x7b\x7d"
  | .jobj (f :: fs) =>
    "\x7b\n" ++ indentStr (ind + 2) ++
      sepJoin (",\n" ++ indentStr (ind + 2))
        ((f :: fs).attach.map fun x => quoteJson x.1.1 ++ ": " ++ prettyGo (ind + 2) x.1.2) ++
      "\n" ++ indentStr ind ++ "\x7d"
termination_by j => sizeOf j
decreasing_by
  · have := List.sizeOf_lt_of_mem x.2
    simp only [Json.jarr.sizeOf_spec]
    omega
  · have h1 := List.sizeOf_lt_of_mem x.2
    have h2 : sizeOf x.1.2 < sizeOf x.1 := by
      obtain ⟨a, b⟩ := x.1
      simp only [Prod.mk.sizeOf_spec]
      omega
    simp only [Json.jobj.sizeOf_spec]
    omega

/-- `JSON.stringify(v, null, 2)` as called on the tool-use input. -/
def prettyJson (j : Json) : String := prettyGo 0 j

/-! ## Data model (the inline types of `src/index.ts`) -/

/-- Message roles. -/
inductive Role where
  | user : Role
  | assistant : Role
  | system : Role
  | developer : Role
  | tool : Role
deriving DecidableEq

/-- Message content: `string | string[] | null`. -/
inductive Content where
  | str : String → Content
  | strs : List String → Content
  | nullc : Content
deriving DecidableEq

/-- A neutral message. -/
structure Message where
  role : Role
  content : Content
  name : Option String := none
deriving DecidableEq

/-- The named JSON schema carried by a `json_schema` response format. -/
structure SchemaDescr where
  name : String
  description : Option String
  schema : Json

/-- The request's response-format descriptor. -/
structure ResponseFormat where
  type : String
  json_schema : SchemaDescr

/-- The neutral request (the unused `validator` and the `addMessage` method
are omitted; the adapter only reads the fields below). -/
structure Request where
  messages : List Message
  model : String
  responseFormat : Option ResponseFormat := none

/-- Execution options. -/
structure ExecutionOptions where
  apiKey : Option String := none
  model : Option String := none
  temperature : Option Rat := none
  maxTokens : Option Nat := none
  timeout : Option Nat := none
  retries : Option Nat := none

/-- One entry of the vendor turn list.  The source casts `msg.role` to
`'user' | 'assistant'` for the type checker only; at runtime the original
role value passes through, so the model keeps the full role. -/
structure Turn where
  role : Role
  content : String
deriving DecidableEq

/-- A vendor tool definition. -/
structure ToolDef where
  name : String
  description : String
  input_schema : Json

/-- A forced tool choice (`{ type: 'tool', name }`). -/
structure ToolChoice where
  type : String
  name : String
deriving DecidableEq

/-- The argument object of `client.messages.create`. -/
structure CreateParams where
  model : String
  system : Option String
  messages : List Turn
  max_tokens : Nat
  temperature : Option Rat
  tools : Option (List ToolDef)
  tool_choice : Option ToolChoice

/-- A vendor response content block. -/
inductive ContentBlock where
  | text : String → ContentBlock
  | toolUse : String → String → Json → ContentBlock
  | thinking : String → ContentBlock

/-- Vendor token counters. -/
structure VendorUsage where
  input_tokens : Nat
  output_tokens : Nat
deriving DecidableEq

/-- The vendor response. -/
structure VendorResponse where
  model : String
  content : List ContentBlock
  usage : VendorUsage

/-- Neutral usage counters. -/
structure UsageOut where
  inputTokens : Nat
  outputTokens : Nat
deriving DecidableEq

/-- A neutral tool call (declared by the interface; never constructed by this
adapter). -/
structure ToolCall where
  id : String
  name : String
  arguments : String
deriving DecidableEq

/-- The neutral provider response. -/
structure ProviderResponse where
  content : String
  model : String
  usage : Option UsageOut := none
  toolCalls : Option (List ToolCall) := none
deriving DecidableEq

/-- A thrown JavaScript error, as far as the adapter looks at it. -/
structure ErrInfo where
  message : String
  stack : String
deriving DecidableEq

/-- The sanitized error produced by `createSafeError`. -/
structure SafeError where
  message : String
  stack : String
  provider : String
deriving DecidableEq

/-- What `execute` can throw: a plain error raised before the `try` block, or
a sanitized error raised from inside it. -/
inductive ExecError where
  | plain : String → ExecError
  | safe : SafeError → ExecError
deriving DecidableEq

/-! ## The adapter's operations -/

/-- `block.type === 'tool_use'`. -/
def ContentBlock.isToolUse : ContentBlock → Bool
  | .toolUse _ _ _ => true
  | _ => false

/-- `block.type === 'text'`. -/
def ContentBlock.isText : ContentBlock → Bool
  | .text _ => true
  | _ => false

/-- `msg.role === 'system' || msg.role === 'developer'`. -/
def isSysRole : Role → Bool
  | .system => true
  | .developer => true
  | _ => false

/-- `typeof content === 'string' ? content : JSON.stringify(content)`. -/
def serializeContent : Content → String
  | .str s => s
  | .strs l => "[" ++ sepJoin "," (l.map quoteJson) ++ "]"
  | .nullc => "null"

/-- The turn pushed for a non-system message. -/
def toTurn (m : Message) : Turn := ⟨m.role, serializeContent m.content⟩

/-- The partition loop of lines 139–157: system and developer messages
accumulate `serialized ++ "\n\n"` onto the system prompt in order, every
other message is pushed onto the turn list in order. -/
def partitionMessages : List Message → String × List Turn
  | [] => ("", [])
  | m :: rest =>
    let p := partitionMessages rest
    if isSysRole m.role then
      (serializeContent m.content ++ "\n\n" ++ p.1, p.2)
    else
      (p.1, toTurn m :: p.2)

/-- The hardcoded default model. -/
def defaultModel : String := "claude-3-opus-20240229"

/-- The default description of the forced tool. -/
def defaultToolDescription : String := "Output data in this structured format"

/-- The argument object passed to `client.messages.create` (lines 159–183). -/
def mkParams (req : Request) (opts : ExecutionOptions) : CreateParams :=
  let p := partitionMessages req.messages
  let sys := jsTrim p.1
  { model := jsOrStr opts.model (jsOrStr2 req.model defaultModel)
    system := if sys = "" then none else some sys
    messages := p.2
    max_tokens := jsOrNat opts.maxTokens 4096
    temperature := opts.temperature
    tools :=
      match req.responseFormat with
      | some rf =>
        if rf.type = "json_schema" then
          some [⟨rf.json_schema.name,
                 jsOrStr rf.json_schema.description defaultToolDescription,
                 rf.json_schema.schema⟩]
        else none
      | none => none
    tool_choice :=
      match req.responseFormat with
      | some rf =>
        if rf.type = "json_schema" then some ⟨"tool", rf.json_schema.name⟩
        else none
      | none => none }

/-- The runtime failure of `response.content[0].type` on an empty content
list: reading a property of `undefined` throws a `TypeError`. -/
def typeErrorInfo : ErrInfo :=
  ⟨"TypeError: Cannot read properties of undefined (reading 'type')",
   "TypeError: Cannot read properties of undefined (reading 'type')"⟩

/-- Lines 195–198: `const contentBlock = response.content[0];
text = contentBlock.type === 'text' ? contentBlock.text : ''`.  On an empty
list `contentBlock` is `undefined` and the `.type` access throws. -/
def plainText : List ContentBlock → Except ErrInfo String
  | [] => .error typeErrorInfo
  | b :: _ =>
    .ok (match b with
         | .text t => t
         | _ => "")

/-- Content extraction (lines 185–198): in `json_schema` mode find the first
`tool_use` block and pretty-print its input, empty string when there is
none; otherwise read the first block. -/
def extractText (rf : Option ResponseFormat) (blocks : List ContentBlock) :
    Except ErrInfo String :=
  match rf with
  | some f =>
    if f.type = "json_schema" then
      .ok (match blocks.find? ContentBlock.isToolUse with
           | some (.toolUse _ _ input) => prettyJson input
           | _ => "")
    else plainText blocks
  | none => plainText blocks

/-- Modelled from the spec: `createSafeError` lives in the external
`@utilarium/spotclean` package, not in this repository.  Per the spec it is
"sanitized to remove any embedded credential substrings from message and
stack trace, tagged with provider identity": the secret-guard patterns
registered on module load (`sk-ant-[a-zA-Z0-9_-]+`, replacement
`[REDACTED]`) are applied to message and stack, and the provider tag from
the context argument is attached. -/
def createSafeError (e : ErrInfo) (provider : String) : SafeError :=
  ⟨redactS e.message, redactS e.stack, provider⟩

/-- Message of the missing-key error (line 124). -/
def credErrorMessage : String :=
  "Anthropic API key is required. Set ANTHROPIC_API_KEY environment variable."

/-- Message of the malformed-key error (line 130). -/
def invalidKeyMessage : String := "Invalid Anthropic API key format"

/-- JavaScript `s.startsWith(pre)`. -/
def jsStartsWith (s pre : String) : Bool := pre.data.isPrefixOf s.data

/-- `AnthropicProvider.supportsModel` (lines 109–112). -/
def supportsModel (model : String) : Bool :=
  if model = "" then false
  else jsStartsWith model "claude"

/-- `AnthropicProvider.execute` (lines 117–213).  The `ANTHROPIC_API_KEY`
environment variable and the vendor client are explicit parameters; the
vendor call is the single application of `vendor`.  Failures thrown before
the `try` block are `ExecError.plain`; failures arising inside it are
wrapped by `createSafeError`. -/
def execute (req : Request) (opts : ExecutionOptions) (env : Option String)
    (vendor : CreateParams → Except ErrInfo VendorResponse) :
    Except ExecError ProviderResponse :=
  match jsOr opts.apiKey env with
  | none => .error (.plain credErrorMessage)
  | some apiKey =>
    if apiKey = "" then .error (.plain credErrorMessage)
    else if validKey apiKey.data then
      match vendor (mkParams req opts) with
      | .error e => .error (.safe (createSafeError e "anthropic"))
      | .ok resp =>
        match extractText req.responseFormat resp.content with
        | .error e => .error (.safe (createSafeError e "anthropic"))
        | .ok text =>
          .ok { content := text
                model := resp.model
                usage := some ⟨resp.usage.input_tokens, resp.usage.output_tokens⟩ }
    else .error (.plain invalidKeyMessage)

/-! ## Redaction lemmas

The redaction output is an interleaving of `[REDACTED]` tokens and chunks of
the original text in which no pattern match starts.  The lemmas below show
that no match of `sk-ant-[a-zA-Z0-9_-]+` can start anywhere in the output,
hence no string accepted by the key validator survives redaction. -/

/-- `startsWithKeyPat` characterized as a shape of the list. -/
lemma startsWithKeyPat_iff {m : List Char} :
    startsWithKeyPat m = true ↔ ∃ d t, isKeyChar d = true ∧ m = skAntPat ++ d :: t := by
  constructor
  · intro h
    unfold startsWithKeyPat at h
    rw [Bool.and_eq_true] at h
    obtain ⟨h1, h2⟩ := h
    rw [ List.isPrefixOf_iff_prefix] at h1
    obtain ⟨t, rfl⟩ := h1
    rw [List.drop_left' (by rfl)] at h2
    cases t with
    | nil => simp at h2
    | cons d t' => exact ⟨d, t', h2, rfl⟩
  · rintro ⟨d, t, hd, rfl⟩
    unfold startsWithKeyPat
    rw [Bool.and_eq_true]
    refine ⟨?_, ?_⟩
    · rw [ List.isPrefixOf_iff_prefix]
      exact ⟨d :: t, rfl⟩
    · rw [List.drop_left' (by rfl)]
      exact hd

/-- A list that does not start with `s` starts no pattern match. -/
lemma startsWithKeyPat_of_head_ne {c : Char} {t : List Char} (h : c ≠ 's') :
    startsWithKeyPat (c :: t) = false := by
  cases hsw : startsWithKeyPat (c :: t) with
  | false => rfl
  | true =>
    exfalso
    rw [startsWithKeyPat_iff] at hsw
    obtain ⟨d, t', _, heq⟩ := hsw
    simp [skAntPat] at heq
    exact h heq.1

/-- A prefix of the redaction output made only of key characters is a prefix
of the input: the output starts either with `[` (not a key character) or
with an unmatched original character. -/
lemma prefix_of_redactGo : ∀ (n : Nat) (l p : List Char),
    p.all isKeyChar = true → p <+: redactGo n l → p <+: l := by
  intro n
  induction n with
  | zero =>
    intro l p _ hp
    simpa [redactGo] using hp
  | succ n ih =>
    intro l p hall hp
    cases l with
    | nil => simpa [redactGo] using hp
    | cons c rest =>
      by_cases hsw : startsWithKeyPat (c :: rest) = true
      · simp only [redactGo, hsw, if_true] at hp
        cases p with
        | nil => exact List.nil_prefix
        | cons d p' =>
          exfalso
          have hd : d = '[' := by
            have h2 : (d :: p') <+: '[' :: (['R', 'E', 'D', 'A', 'C', 'T', 'E', 'D', ']'] ++
                redactGo n (((c :: rest).drop 7).dropWhile isKeyChar)) := hp
            rw [List.cons_prefix_cons] at h2
            exact h2.1
          have : isKeyChar d = true := by
            rw [List.all_cons, Bool.and_eq_true] at hall
            exact hall.1
          rw [hd] at this
          exact absurd this (by decide)
      · rw [Bool.not_eq_true] at hsw
        simp only [redactGo, hsw, Bool.false_eq_true, if_false] at hp
        cases p with
        | nil => exact List.nil_prefix
        | cons d p' =>
          rw [List.cons_prefix_cons] at hp
          obtain ⟨rfl, hp'⟩ := hp
          rw [List.all_cons, Bool.and_eq_true] at hall
          exact List.cons_prefix_cons.mpr ⟨rfl, ih rest p' hall.2 hp'⟩

/-- Prepending the `[REDACTED]` token changes no pattern-match positions. -/
lemma hasKeyPat_redactedText_append (out : List Char) :
    hasKeyPat (redactedText ++ out) = hasKeyPat out := by
  simp only [redactedText, List.cons_append, List.nil_append, hasKeyPat]
  rw [startsWithKeyPat_of_head_ne (by decide), startsWithKeyPat_of_head_ne (by decide),
    startsWithKeyPat_of_head_ne (by decide), startsWithKeyPat_of_head_ne (by decide),
    startsWithKeyPat_of_head_ne (by decide), startsWithKeyPat_of_head_ne (by decide),
    startsWithKeyPat_of_head_ne (by decide), startsWithKeyPat_of_head_ne (by decide),
    startsWithKeyPat_of_head_ne (by decide), startsWithKeyPat_of_head_ne (by decide)]
  simp

/-- A matched region has at least the 8 characters `sk-ant-` plus one. -/
lemma startsWithKeyPat_length {l : List Char} (h : startsWithKeyPat l = true) :
    8 ≤ l.length := by
  rw [startsWithKeyPat_iff] at h
  obtain ⟨d, t, _, rfl⟩ := h
  simp [skAntPat]

/-- No pattern match starts anywhere in the redaction output. -/
lemma hasKeyPat_redactGo : ∀ (n : Nat) (l : List Char),
    l.length ≤ n → hasKeyPat (redactGo n l) = false := by
  intro n
  induction n with
  | zero =>
    intro l hl
    have : l = [] := List.eq_nil_of_length_eq_zero (Nat.le_zero.mp hl)
    subst this
    simp [redactGo, hasKeyPat]
  | succ n ih =>
    intro l hl
    cases l with
    | nil => simp [redactGo, hasKeyPat]
    | cons c rest =>
      by_cases hsw : startsWithKeyPat (c :: rest) = true
      · simp only [redactGo, hsw, if_true]
        rw [hasKeyPat_redactedText_append]
        apply ih
        have h8 : 8 ≤ (c :: rest).length := startsWithKeyPat_length hsw
        have h1 : (((c :: rest).drop 7).dropWhile isKeyChar).length ≤
            ((c :: rest).drop 7).length := (List.dropWhile_sublist _).length_le
        have h2 : ((c :: rest).drop 7).length = (c :: rest).length - 7 :=
          List.length_drop _ _
        simp only [List.length_cons] at h8 hl h1 h2 ⊢
        omega
      · have hsw' : startsWithKeyPat (c :: rest) = false := Bool.not_eq_true _ |>.mp hsw
        simp only [redactGo, hsw', Bool.false_eq_true, if_false]
        rw [hasKeyPat, ih rest (by simp only [List.length_cons] at hl; omega), Bool.or_false]
        cases hsw2 : startsWithKeyPat (c :: redactGo n rest) with
        | false => rfl
        | true =>
          exfalso
          rw [startsWithKeyPat_iff] at hsw2
          obtain ⟨d, t, hd, heq⟩ := hsw2
          simp only [skAntPat, List.cons_append, List.nil_append, List.cons.injEq] at heq
          obtain ⟨hc, hrest⟩ := heq
          have hpre : ['k', '-', 'a', 'n', 't', '-', d] <+: redactGo n rest := by
            rw [hrest]
            exact ⟨t, rfl⟩
          have hall : (['k', '-', 'a', 'n', 't', '-', d]).all isKeyChar = true := by
            simp [List.all_cons, hd]
            decide
          have hsub := prefix_of_redactGo n rest _ hall hpre
          apply hsw
          rw [startsWithKeyPat_iff]
          obtain ⟨t', ht'⟩ := hsub
          refine ⟨d, t', hd, ?_⟩
          rw [hc, ← ht']
          simp [skAntPat]


/-- An infix occurrence of a list that starts a pattern match makes a
pattern-match position. -/
lemma hasKeyPat_of_infix : ∀ (m k : List Char),
    startsWithKeyPat k = true → k <:+: m → hasKeyPat m = true := by
  intro m
  induction m with
  | nil =>
    intro k hk hinf
    rw [List.infix_nil] at hinf
    subst hinf
    rw [startsWithKeyPat_iff] at hk
    obtain ⟨d, t, _, heq⟩ := hk
    simp [skAntPat] at heq
  | cons c m' ih =>
    intro k hk hinf
    rw [List.infix_cons_iff] at hinf
    cases hinf with
    | inl hpre =>
      rw [hasKeyPat]
      have hcm : startsWithKeyPat (c :: m') = true := by
        rw [startsWithKeyPat_iff] at hk ⊢
        obtain ⟨d, t, hd, rfl⟩ := hk
        obtain ⟨u, hu⟩ := hpre
        refine ⟨d, t ++ u, hd, ?_⟩
        rw [← hu]
        simp
      rw [hcm, Bool.true_or]
    | inr hinf' =>
      rw [hasKeyPat, ih k hk hinf', Bool.or_true]

/-- Every string accepted by the registered key validator starts a pattern
match of the redaction regex. -/
lemma validKey_startsWithKeyPat {k : List Char} (h : validKey k = true) :
    startsWithKeyPat k = true := by
  unfold validKey at h
  rw [Bool.and_eq_true] at h
  obtain ⟨h1, h2⟩ := h
  rw [ List.isPrefixOf_iff_prefix] at h1
  obtain ⟨t, rfl⟩ := h1
  rw [List.drop_left' (by rfl)] at h2
  rw [startsWithKeyPat_iff]
  unfold keyTail at h2
  rw [Bool.or_eq_true] at h2
  cases h2 with
  | inl hapi =>
    unfold apiTail at hapi
    rw [Bool.and_eq_true] at hapi
    obtain ⟨hpre, _⟩ := hapi
    rw [ List.isPrefixOf_iff_prefix] at hpre
    obtain ⟨u, hu⟩ := hpre
    refine ⟨'a', 'p' :: 'i' :: u, by decide, ?_⟩
    rw [← hu]
    simp
  | inr hbare =>
    rw [Bool.and_eq_true] at hbare
    obtain ⟨hne, hall⟩ := hbare
    cases t with
    | nil => simp at hne
    | cons d t' =>
      rw [List.all_cons, Bool.and_eq_true] at hall
      exact ⟨d, t', hall.1, rfl⟩

/-- Redaction removes every substring accepted by the key validator. -/
lemma validKey_not_infix_redact (s k : List Char) (h : validKey k = true) :
    ¬ (k <:+: redact s) := by
  intro hinf
  have h1 := hasKeyPat_of_infix (redact s) k (validKey_startsWithKeyPat h) hinf
  have h2 := hasKeyPat_redactGo s.length s le_rfl
  rw [redact] at h1
  rw [h1] at h2
  exact absurd h2 (by decide)

/-! ## Partition and trim lemmas -/

/-- Concatenation with a trailing `"\n\n"` after every element, exactly as
the `systemPrompt +=` loop accumulates it. -/
def joinNN : List String → String
  | [] => ""
  | x :: xs => x ++ "\n\n" ++ joinNN xs

/-- The accumulated system prompt is the serialized system and developer
messages, each followed by a blank-line separator. -/
lemma partitionMessages_fst (msgs : List Message) :
    (partitionMessages msgs).1 =
      joinNN ((msgs.filter fun m => isSysRole m.role).map
        fun m => serializeContent m.content) := by
  induction msgs with
  | nil => rfl
  | cons m rest ih =>
    simp only [partitionMessages, List.filter_cons]
    cases h : isSysRole m.role with
    | true => simp [h, joinNN, ih]
    | false => simp [h, ih]

/-- The turn list is the non-system messages, mapped one to one. -/
lemma partitionMessages_snd (msgs : List Message) :
    (partitionMessages msgs).2 =
      (msgs.filter fun m => !isSysRole m.role).map toTurn := by
  induction msgs with
  | nil => rfl
  | cons m rest ih =>
    simp only [partitionMessages, List.filter_cons]
    cases h : isSysRole m.role with
    | true => simp [h, ih]
    | false => simp [h, ih]

/-- Appending an all-whitespace suffix does not change the trim. -/
lemma trimChars_append_ws {w : List Char} (hw : ∀ c ∈ w, jsWhitespace c = true)
    (l : List Char) : trimChars (l ++ w) = trimChars l := by
  unfold trimChars
  rw [List.dropWhile_append]
  by_cases h : (List.dropWhile jsWhitespace l).isEmpty
  · rw [if_pos h]
    have hwl : List.dropWhile jsWhitespace w = [] :=
      List.dropWhile_eq_nil_iff.mpr hw
    have hl : List.dropWhile jsWhitespace l = [] := by
      cases hdl : List.dropWhile jsWhitespace l with
      | nil => rfl
      | cons a b => rw [hdl] at h; simp [List.isEmpty] at h
    rw [hwl, hl]
  · rw [if_neg h, List.reverse_append, List.dropWhile_append]
    have hwr : (List.dropWhile jsWhitespace w.reverse).isEmpty = true := by
      have : List.dropWhile jsWhitespace w.reverse = [] :=
        List.dropWhile_eq_nil_iff.mpr
          (fun x hx => hw x (List.mem_reverse.mp hx))
      rw [this]
      rfl
    rw [if_pos hwr]

/-- `trim` swallows a trailing blank-line separator. -/
lemma jsTrim_append_nn (s : String) : jsTrim (s ++ "\n\n") = jsTrim s := by
  unfold jsTrim
  rw [String.data_append]
  congr 1
  apply trimChars_append_ws
  intro c hc
  have hdata : ("\n\n").data = ['\n', '\n'] := rfl
  rw [hdata] at hc
  simp at hc
  subst hc
  decide

/-- On a non-empty list, the trailing-separator concatenation is the
separator-join plus one trailing separator. -/
lemma joinNN_eq_sepJoin_append : ∀ (x : String) (xs : List String),
    joinNN (x :: xs) = sepJoin "\n\n" (x :: xs) ++ "\n\n" := by
  intro x xs
  induction xs generalizing x with
  | nil => simp [joinNN, sepJoin, String.append_empty]
  | cons y ys ih =>
    show x ++ "\n\n" ++ joinNN (y :: ys) = sepJoin "\n\n" (x :: y :: ys) ++ "\n\n"
    rw [ih y]
    simp [sepJoin, String.append_assoc]

/-- After trimming, the accumulated system prompt equals the trim of the
serialized system messages joined by blank lines. -/
lemma jsTrim_joinNN (xs : List String) :
    jsTrim (joinNN xs) = jsTrim (sepJoin "\n\n" xs) := by
  cases xs with
  | nil => rfl
  | cons x xs' => rw [joinNN_eq_sepJoin_append, jsTrim_append_nn]

/-! ## Execute control-flow lemmas -/

/-- Once a non-empty, format-valid key is resolved, `execute` runs the
vendor-call phase. -/
lemma execute_of_validKey {req : Request} {opts : ExecutionOptions}
    {env : Option String} {vendor : CreateParams → Except ErrInfo VendorResponse}
    {k : String} (hk : jsOr opts.apiKey env = some k) (hne : k ≠ "")
    (hv : validKey k.data = true) :
    execute req opts env vendor =
      match vendor (mkParams req opts) with
      | .error e => .error (.safe (createSafeError e "anthropic"))
      | .ok resp =>
        match extractText req.responseFormat resp.content with
        | .error e => .error (.safe (createSafeError e "anthropic"))
        | .ok text =>
          .ok { content := text
                model := resp.model
                usage := some ⟨resp.usage.input_tokens, resp.usage.output_tokens⟩ } := by
  simp only [execute, hk]
  rw [if_neg hne, if_pos hv]

/-- With a valid key, a vendor failure becomes a sanitized error. -/
lemma execute_vendor_error {req : Request} {opts : ExecutionOptions}
    {env : Option String} {vendor : CreateParams → Except ErrInfo VendorResponse}
    {k : String} {e : ErrInfo} (hk : jsOr opts.apiKey env = some k)
    (hne : k ≠ "") (hv : validKey k.data = true)
    (hvr : vendor (mkParams req opts) = .error e) :
    execute req opts env vendor = .error (.safe (createSafeError e "anthropic")) := by
  rw [execute_of_validKey hk hne hv, hvr]

/-- With a valid key and a vendor response, `execute` is extraction. -/
lemma execute_vendor_ok {req : Request} {opts : ExecutionOptions}
    {env : Option String} {vendor : CreateParams → Except ErrInfo VendorResponse}
    {k : String} {resp : VendorResponse} (hk : jsOr opts.apiKey env = some k)
    (hne : k ≠ "") (hv : validKey k.data = true)
    (hvr : vendor (mkParams req opts) = .ok resp) :
    execute req opts env vendor =
      match extractText req.responseFormat resp.content with
      | .error e => .error (.safe (createSafeError e "anthropic"))
      | .ok text =>
        .ok { content := text
              model := resp.model
              usage := some ⟨resp.usage.input_tokens, resp.usage.output_tokens⟩ } := by
  rw [execute_of_validKey hk hne hv, hvr]

/-- With a valid key, a vendor response and a successful extraction,
`execute` succeeds with the extracted text and the vendor's model and
counters; `toolCalls` stays unset. -/
lemma execute_ok_of {req : Request} {opts : ExecutionOptions}
    {env : Option String} {vendor : CreateParams → Except ErrInfo VendorResponse}
    {k : String} {resp : VendorResponse} {text : String}
    (hk : jsOr opts.apiKey env = some k) (hne : k ≠ "")
    (hv : validKey k.data = true) (hvr : vendor (mkParams req opts) = .ok resp)
    (hex : extractText req.responseFormat resp.content = .ok text) :
    execute req opts env vendor =
      .ok { content := text
            model := resp.model
            usage := some ⟨resp.usage.input_tokens, resp.usage.output_tokens⟩ } := by
  rw [execute_vendor_ok hk hne hv hvr, hex]

/-- With a valid key, a vendor response and a failing extraction, the
failure is sanitized. -/
lemma execute_extract_error {req : Request} {opts : ExecutionOptions}
    {env : Option String} {vendor : CreateParams → Except ErrInfo VendorResponse}
    {k : String} {resp : VendorResponse} {e : ErrInfo}
    (hk : jsOr opts.apiKey env = some k) (hne : k ≠ "")
    (hv : validKey k.data = true) (hvr : vendor (mkParams req opts) = .ok resp)
    (hex : extractText req.responseFormat resp.content = .error e) :
    execute req opts env vendor = .error (.safe (createSafeError e "anthropic")) := by
  rw [execute_vendor_ok hk hne hv hvr, hex]

/-- A sanitized error can only leave `execute` after the resolved key passed
format validation, and it is always a `createSafeError` wrap. -/
lemma execute_safe_validKey {req : Request} {opts : ExecutionOptions}
    {env : Option String} {vendor : CreateParams → Except ErrInfo VendorResponse}
    {se : SafeError} {k : String} (hk : jsOr opts.apiKey env = some k)
    (h : execute req opts env vendor = .error (.safe se)) :
    validKey k.data = true ∧ ∃ e, se = createSafeError e "anthropic" := by
  by_cases hne : k = ""
  · exfalso
    simp only [execute, hk] at h
    rw [if_pos hne] at h
    exact absurd h (by simp)
  · by_cases hv : validKey k.data = true
    · refine ⟨hv, ?_⟩
      cases hvr : vendor (mkParams req opts) with
      | error e =>
        rw [execute_vendor_error hk hne hv hvr] at h
        simp only [Except.error.injEq, ExecError.safe.injEq] at h
        exact ⟨e, h.symm⟩
      | ok resp =>
        rw [execute_vendor_ok hk hne hv hvr] at h
        cases hex : extractText req.responseFormat resp.content with
        | error e =>
          rw [hex] at h
          simp only [Except.error.injEq, ExecError.safe.injEq] at h
          exact ⟨e, h.symm⟩
        | ok text =>
          rw [hex] at h
          exact absurd h (by simp)
    · exfalso
      simp only [execute, hk] at h
      rw [if_neg hne, if_neg hv] at h
      exact absurd h (by simp)

/-- A success of `execute` pins down the whole path: a resolved, non-empty,
format-valid key, a vendor response, a successful extraction, and the result
record with `toolCalls` left unset. -/
lemma execute_ok_inversion {req : Request} {opts : ExecutionOptions}
    {env : Option String} {vendor : CreateParams → Except ErrInfo VendorResponse}
    {r : ProviderResponse} (h : execute req opts env vendor = .ok r) :
    ∃ k resp text, jsOr opts.apiKey env = some k ∧ k ≠ "" ∧
      validKey k.data = true ∧ vendor (mkParams req opts) = .ok resp ∧
      extractText req.responseFormat resp.content = .ok text ∧
      r = { content := text
            model := resp.model
            usage := some ⟨resp.usage.input_tokens, resp.usage.output_tokens⟩ } := by
  cases hjs : jsOr opts.apiKey env with
  | none =>
    exfalso
    simp only [execute, hjs] at h
    exact absurd h (by simp)
  | some k =>
    by_cases hne : k = ""
    · exfalso
      simp only [execute, hjs] at h
      rw [if_pos hne] at h
      exact absurd h (by simp)
    · by_cases hv : validKey k.data = true
      · cases hvr : vendor (mkParams req opts) with
        | error e =>
          exfalso
          rw [execute_vendor_error hjs hne hv hvr] at h
          exact absurd h (by simp)
        | ok resp =>
          cases hex : extractText req.responseFormat resp.content with
          | error e =>
            exfalso
            rw [execute_extract_error hjs hne hv hvr hex] at h
            exact absurd h (by simp)
          | ok text =>
            rw [execute_ok_of hjs hne hv hvr hex] at h
            simp only [Except.ok.injEq] at h
            exact ⟨k, resp, text, rfl, hne, hv, rfl, hex, h.symm⟩
      · exfalso
        simp only [execute, hjs] at h
        rw [if_neg hne, if_neg hv] at h
        exact absurd h (by simp)

/-- When the response format is absent or not `json_schema`, extraction is
the plain first-block read. -/
lemma extractText_plain {rf : Option ResponseFormat} {blocks : List ContentBlock}
    (hplain : ∀ f, rf = some f → f.type ≠ "json_schema") :
    extractText rf blocks = plainText blocks := by
  cases rf with
  | none => rfl
  | some f => simp [extractText, hplain f rfl]

/-- `Array.find` returns the first `tool_use` block. -/
lemma find?_first_toolUse (pre post : List ContentBlock) (i n : String)
    (inp : Json) (hpre : ∀ b ∈ pre, b.isToolUse = false) :
    (pre ++ ContentBlock.toolUse i n inp :: post).find? ContentBlock.isToolUse =
      some (ContentBlock.toolUse i n inp) := by
  induction pre with
  | nil => simp [ContentBlock.isToolUse]
  | cons b pre' ih =>
    rw [List.cons_append,
      List.find?_cons_of_neg _ (by simp [hpre b (List.mem_cons_self b pre')])]
    exact ih fun b hb => hpre b (List.mem_cons_of_mem _ hb)

/-! ## Concrete sample inputs shared by the witnesses -/

/-- A user message. -/
def wUserMsg : Message := ⟨.user, .str "Hello!", none⟩

/-- A system message. -/
def wSysMsg : Message := ⟨.system, .str "You are helpful.", none⟩

/-- A `json_schema` response format. -/
def wFormat : ResponseFormat := ⟨"json_schema", ⟨"out", none, Json.jobj []⟩⟩

/-- A plain request. -/
def wReqPlain : Request := ⟨[wSysMsg, wUserMsg], "claude-3-opus-20240229", none⟩

/-- A structured-output request. -/
def wReqSchema : Request := ⟨[wSysMsg, wUserMsg], "claude-3-opus-20240229", some wFormat⟩

/-- A well-formed API key. -/
def wKey : String := "sk-ant-api03-abc_DEF-123"

/-- Options carrying the well-formed key. -/
def wOpts : ExecutionOptions := ⟨some wKey, none, none, none, none, none⟩

/-- Options carrying no key. -/
def wOptsNoKey : ExecutionOptions := ⟨none, none, none, none, none, none⟩

/-- A vendor response with one text block. -/
def wResp : VendorResponse := ⟨"claude-3-opus-20240229", [.text "Hi!"], ⟨7, 9⟩⟩

/-- A vendor client answering `wResp`. -/
def wVendor : CreateParams → Except ErrInfo VendorResponse := fun _ => .ok wResp

/-- A vendor client that fails with the key embedded in message and stack. -/
def wFailVendor : CreateParams → Except ErrInfo VendorResponse :=
  fun _ => .error ⟨"boom sk-ant-api03-abc_DEF-123 end", "trace sk-ant-api03-abc_DEF-123"⟩

/-- The sanitized error produced for `wFailVendor`. -/
def wSafe : SafeError :=
  createSafeError ⟨"boom sk-ant-api03-abc_DEF-123 end", "trace sk-ant-api03-abc_DEF-123"⟩
    "anthropic"

/-! ## The claims -/

/-- C1: `execute` partitions `request.messages`: every system or developer
message is concatenated (serialized to a string when its content is not a
string) into the single system-prompt string, separated by blank lines and
trimmed, and never appears in the outbound turn list; every other message
maps one to one, in its original order, into the outbound turn list with
non-string content serialized to a string. -/
theorem execute_partitions_messages (req : Request) (opts : ExecutionOptions) :
    (mkParams req opts).messages =
      (req.messages.filter fun m => !isSysRole m.role).map toTurn ∧
    (mkParams req opts).system =
      (let sp := jsTrim (sepJoin "\n\n"
        ((req.messages.filter fun m => isSysRole m.role).map
          fun m => serializeContent m.content))
       if sp = "" then none else some sp) := by
  refine ⟨?_, ?_⟩
  · simp only [mkParams]
    exact partitionMessages_snd req.messages
  · simp only [mkParams]
    rw [partitionMessages_fst, jsTrim_joinNN]

/-- C9: `supportsModel` returns `true` exactly on the non-empty strings that
begin with the family prefix `claude`. -/
theorem supportsModel_iff (m : String) :
    supportsModel m = true ↔ (m ≠ "" ∧ "claude".data <+: m.data) := by
  unfold supportsModel
  by_cases h : m = ""
  · simp [h]
  · simp [h, jsStartsWith, List.isPrefixOf_iff_prefix]

/-- C2: with a `json_schema` response-format descriptor the vendor call is
issued with a single forced tool built from the schema descriptor, and the
returned content equals the pretty-printed JSON serialization of the
tool-invocation block's structured input — or the empty string when the
vendor response contains no tool-invocation block. -/
theorem execute_json_schema_forced_tool
    (req : Request) (opts : ExecutionOptions) (env : Option String)
    (resp : VendorResponse) (f : ResponseFormat) (k : String)
    (hrf : req.responseFormat = some f) (ht : f.type = "json_schema")
    (hk : jsOr opts.apiKey env = some k) (hne : k ≠ "")
    (hv : validKey k.data = true) :
    (mkParams req opts).tools =
      some [⟨f.json_schema.name,
             jsOrStr f.json_schema.description defaultToolDescription,
             f.json_schema.schema⟩] ∧
    (mkParams req opts).tool_choice = some ⟨"tool", f.json_schema.name⟩ ∧
    ∃ r, execute req opts env (fun _ => .ok resp) = .ok r ∧
      (∀ pre i n inp post,
          resp.content = pre ++ ContentBlock.toolUse i n inp :: post →
          (∀ b ∈ pre, b.isToolUse = false) →
          r.content = prettyJson inp) ∧
      ((∀ b ∈ resp.content, b.isToolUse = false) → r.content = "") := by
  refine ⟨by simp [mkParams, hrf, ht], by simp [mkParams, hrf, ht], ?_⟩
  have hex : extractText req.responseFormat resp.content =
      .ok (match resp.content.find? ContentBlock.isToolUse with
           | some (.toolUse _ _ input) => prettyJson input
           | _ => "") := by
    rw [hrf]
    simp [extractText, ht]
  refine ⟨_, execute_ok_of hk hne hv rfl hex, ?_, ?_⟩
  · intro pre i n inp post hcontent hpre
    show (match resp.content.find? ContentBlock.isToolUse with
          | some (.toolUse _ _ input) => prettyJson input
          | _ => "") = prettyJson inp
    rw [hcontent, find?_first_toolUse pre post i n inp hpre]
  · intro hall
    show (match resp.content.find? ContentBlock.isToolUse with
          | some (.toolUse _ _ input) => prettyJson input
          | _ => "") = ""
    rw [List.find?_eq_none.mpr fun b hb => by simp [hall b hb]]

/-- C2 witness: the forced tool at a concrete schema request. -/
theorem execute_json_schema_forced_tool_witness :
    (mkParams wReqSchema wOpts).tools =
      some [⟨"out", "Output data in this structured format", Json.jobj []⟩] :=
  (execute_json_schema_forced_tool wReqSchema wOpts none wResp wFormat wKey rfl rfl rfl
    (by decide) (by decide)).1

/-- C3: any failure arising from the vendor call is re-thrown sanitized: the
message and the stack of the surfaced error do not contain the API key the
call used, and the error carries the provider identity. -/
theorem execute_error_sanitized
    (req : Request) (opts : ExecutionOptions) (env : Option String)
    (vendor : CreateParams → Except ErrInfo VendorResponse)
    (se : SafeError) (k : String) (hk : jsOr opts.apiKey env = some k)
    (h : execute req opts env vendor = .error (.safe se)) :
    ¬ (k.data <:+: se.message.data) ∧ ¬ (k.data <:+: se.stack.data) ∧
      se.provider = "anthropic" := by
  obtain ⟨hv, e, rfl⟩ := execute_safe_validKey hk h
  exact ⟨validKey_not_infix_redact e.message.data k.data hv,
         validKey_not_infix_redact e.stack.data k.data hv, rfl⟩

/-- C3 witness: a concrete vendor failure embedding the key is sanitized. -/
theorem execute_error_sanitized_witness :
    ¬ (wKey.data <:+: wSafe.message.data) ∧ ¬ (wKey.data <:+: wSafe.stack.data) ∧
      wSafe.provider = "anthropic" :=
  execute_error_sanitized wReqPlain wOpts none wFailVendor wSafe wKey rfl rfl

/-- C4: with no usable key — absent or empty `apiKey` and unset environment
variable — `execute` rejects with the credential error, whose message
contains "API key is required"; an empty-string `apiKey` behaves exactly
like an absent one (it falls back to the environment variable). -/
theorem execute_missing_key_credential_error
    (req : Request) (opts : ExecutionOptions) (env : Option String)
    (vendor : CreateParams → Except ErrInfo VendorResponse) :
    ((opts.apiKey = none ∨ opts.apiKey = some "") → env = none →
      execute req opts env vendor = .error (.plain credErrorMessage) ∧
        "API key is required".data <:+: credErrorMessage.data) ∧
    execute req { opts with apiKey := some "" } env vendor =
      execute req { opts with apiKey := none } env vendor := by
  constructor
  · intro hke henv
    subst henv
    refine ⟨?_, by decide⟩
    rcases hke with hke | hke <;> simp [execute, jsOr, hke]
  · rfl

/-- C4 witness: missing key at concrete inputs. -/
theorem execute_missing_key_credential_error_witness :
    execute wReqPlain wOptsNoKey none wVendor = .error (.plain credErrorMessage) ∧
      "API key is required".data <:+: credErrorMessage.data :=
  (execute_missing_key_credential_error wReqPlain wOptsNoKey none wVendor).1
    (Or.inl rfl) rfl

/-- C5: a resolved key that fails the vendor key pattern makes `execute`
reject with the validation error before any vendor call (the result does not
depend on the vendor); a key matching the pattern never produces a pre-call
rejection. -/
theorem execute_key_format_validation
    (req : Request) (opts : ExecutionOptions) (env : Option String)
    (vendor vendor' : CreateParams → Except ErrInfo VendorResponse)
    (k : String) (hk : jsOr opts.apiKey env = some k) (hne : k ≠ "") :
    (validKey k.data = false →
      execute req opts env vendor = .error (.plain invalidKeyMessage) ∧
      execute req opts env vendor = execute req opts env vendor') ∧
    (validKey k.data = true →
      ∀ m, execute req opts env vendor ≠ .error (.plain m)) := by
  constructor
  · intro hv
    have hrun : ∀ (v : CreateParams → Except ErrInfo VendorResponse),
        execute req opts env v = .error (.plain invalidKeyMessage) := by
      intro v
      simp only [execute, hk]
      rw [if_neg hne, if_neg (by simp [hv])]
    exact ⟨hrun vendor, by rw [hrun vendor, hrun vendor']⟩
  · intro hv m
    cases hvr : vendor (mkParams req opts) with
    | error e =>
      rw [execute_vendor_error hk hne hv hvr]
      simp
    | ok resp =>
      cases hex : extractText req.responseFormat resp.content with
      | error e =>
        rw [execute_extract_error hk hne hv hvr hex]
        simp
      | ok t =>
        rw [execute_ok_of hk hne hv hvr hex]
        simp

/-- C5 witness: a concrete malformed key is rejected with the validation
error. -/
theorem execute_key_format_validation_witness :
    execute wReqPlain ⟨some "bad-key", none, none, none, none, none⟩ none wVendor =
      .error (.plain invalidKeyMessage) :=
  ((execute_key_format_validation wReqPlain
      ⟨some "bad-key", none, none, none, none, none⟩ none wVendor wFailVendor
      "bad-key" rfl (by decide)).1 (by decide)).1

/-- C6 counterexample: a successful schema-mode call whose response carries
no tool block returns `toolCalls = none` with empty content, so the
tool-structured field is not the populated one although a schema was
requested. -/
theorem exactly_one_populated_cex :
    execute wReqSchema wOpts none wVendor =
      .ok ⟨"", "claude-3-opus-20240229", some ⟨7, 9⟩, none⟩ := rfl

/-- C6 amended: on every successful call the `toolCalls` field is never
populated; `content` is always the populated field — the extracted text in
plain mode, the serialized structured output (or empty string) in schema
mode. -/
theorem execute_toolCalls_never_populated
    (req : Request) (opts : ExecutionOptions) (env : Option String)
    (vendor : CreateParams → Except ErrInfo VendorResponse)
    (r : ProviderResponse) (h : execute req opts env vendor = .ok r) :
    r.toolCalls = none := by
  obtain ⟨k, resp, text, -, -, -, -, -, rfl⟩ := execute_ok_inversion h
  rfl

/-- C6 amended witness. -/
theorem execute_toolCalls_never_populated_witness :
    (⟨"Hi!", "claude-3-opus-20240229", some ⟨7, 9⟩, none⟩ :
        ProviderResponse).toolCalls = none :=
  execute_toolCalls_never_populated wReqPlain wOpts none wVendor _ rfl

/-- C7 counterexample: in plain mode an empty content-block list does not
yield empty content — the extraction itself fails and `execute` surfaces a
sanitized TypeError. -/
theorem empty_blocks_extraction_cex :
    execute wReqPlain wOpts none (fun _ => .ok ⟨"m", [], ⟨1, 2⟩⟩) =
      .error (.safe (createSafeError typeErrorInfo "anthropic")) := rfl

/-- C7 amended: in plain mode, with a non-empty content-block list the
returned content is the first block's text when that block is textual and
the empty string otherwise; with an empty content-block list the extraction
step itself fails (a TypeError, caught and sanitized). -/
theorem execute_plain_first_block
    (req : Request) (opts : ExecutionOptions) (env : Option String)
    (resp : VendorResponse) (k : String)
    (hplain : ∀ f, req.responseFormat = some f → f.type ≠ "json_schema")
    (hk : jsOr opts.apiKey env = some k) (hne : k ≠ "")
    (hv : validKey k.data = true) :
    (∀ b rest, resp.content = b :: rest →
      execute req opts env (fun _ => .ok resp) =
        .ok { content := match b with | .text t => t | _ => ""
              model := resp.model
              usage := some ⟨resp.usage.input_tokens, resp.usage.output_tokens⟩ }) ∧
    (resp.content = [] →
      execute req opts env (fun _ => .ok resp) =
        .error (.safe (createSafeError typeErrorInfo "anthropic"))) := by
  constructor
  · intro b rest hcontent
    refine execute_ok_of hk hne hv rfl ?_
    rw [extractText_plain hplain, hcontent]
    rfl
  · intro hcontent
    refine execute_extract_error hk hne hv rfl ?_
    rw [extractText_plain hplain, hcontent]
    rfl

/-- C7 amended witness: a textual first block at concrete inputs. -/
theorem execute_plain_first_block_witness :
    execute wReqPlain wOpts none (fun _ => .ok wResp) =
      .ok { content := "Hi!"
            model := "claude-3-opus-20240229"
            usage := some ⟨7, 9⟩ } :=
  (execute_plain_first_block wReqPlain wOpts none wResp wKey
      (fun f hf => by simp [wReqPlain] at hf) rfl (by decide) (by decide)).1
    (.text "Hi!") [] rfl

/-- C8: on every successful call the returned usage counters equal the
vendor-reported counters with no transformation, and the returned model is
the vendor-reported model identifier. -/
theorem execute_usage_model_passthrough
    (req : Request) (opts : ExecutionOptions) (env : Option String)
    (resp : VendorResponse) (r : ProviderResponse)
    (h : execute req opts env (fun _ => .ok resp) = .ok r) :
    r.usage = some ⟨resp.usage.input_tokens, resp.usage.output_tokens⟩ ∧
      r.model = resp.model := by
  obtain ⟨k, resp', text, -, -, -, hvr, -, rfl⟩ := execute_ok_inversion h
  have heq : resp = resp' := by simpa using hvr
  subst heq
  exact ⟨rfl, rfl⟩

/-- C8 witness. -/
theorem execute_usage_model_passthrough_witness :
    (⟨"Hi!", "claude-3-opus-20240229", some ⟨7, 9⟩, none⟩ :
        ProviderResponse).usage = some ⟨7, 9⟩ ∧
      (⟨"Hi!", "claude-3-opus-20240229", some ⟨7, 9⟩, none⟩ :
        ProviderResponse).model = "claude-3-opus-20240229" :=
  execute_usage_model_passthrough wReqPlain wOpts none wResp _ rfl

/-- C10: when the key is missing or malformed, `execute` rejects before any
vendor call — the result does not depend on the vendor client — and the
rejection is an unwrapped plain error, bypassing the sanitizing,
provider-tagging wrapper applied only inside the vendor-call `try` block. -/
theorem execute_precheck_rejections
    (req : Request) (opts : ExecutionOptions) (env : Option String)
    (vendor vendor' : CreateParams → Except ErrInfo VendorResponse)
    (hbad : jsOr opts.apiKey env = none ∨
      ∃ k, jsOr opts.apiKey env = some k ∧ (k = "" ∨ validKey k.data = false)) :
    execute req opts env vendor = execute req opts env vendor' ∧
      ∃ m, execute req opts env vendor = .error (.plain m) := by
  rcases hbad with hnone | ⟨k, hk, hcase⟩
  · have hrun : ∀ (v : CreateParams → Except ErrInfo VendorResponse),
        execute req opts env v = .error (.plain credErrorMessage) := by
      intro v
      simp [execute, hnone]
    exact ⟨by rw [hrun vendor, hrun vendor'], credErrorMessage, hrun vendor⟩
  · rcases hcase with rfl | hv
    · have hrun : ∀ (v : CreateParams → Except ErrInfo VendorResponse),
          execute req opts env v = .error (.plain credErrorMessage) := by
        intro v
        simp [execute, hk]
      exact ⟨by rw [hrun vendor, hrun vendor'], credErrorMessage, hrun vendor⟩
    · by_cases hne : k = ""
      · subst hne
        have hrun : ∀ (v : CreateParams → Except ErrInfo VendorResponse),
            execute req opts env v = .error (.plain credErrorMessage) := by
          intro v
          simp [execute, hk]
        exact ⟨by rw [hrun vendor, hrun vendor'], credErrorMessage, hrun vendor⟩
      · have hrun : ∀ (v : CreateParams → Except ErrInfo VendorResponse),
            execute req opts env v = .error (.plain invalidKeyMessage) := by
          intro v
          simp only [execute, hk]
          rw [if_neg hne, if_neg (by simp [hv])]
        exact ⟨by rw [hrun vendor, hrun vendor'], invalidKeyMessage, hrun vendor⟩

/-- C10 witness: with no key the result is identical for two different
vendor clients. -/
theorem execute_precheck_rejections_witness :
    execute wReqPlain wOptsNoKey none wVendor =
      execute wReqPlain wOptsNoKey none wFailVendor :=
  (execute_precheck_rejections wReqPlain wOptsNoKey none wVendor wFailVendor
    (Or.inl rfl)).1

end ExecutionAnthropic
